import Mathlib

/-!
# ircrssreddit: the poll cycle of `bot.go`

A shallow embedding of `firstRun`, `getPosts` and the first-trigger
computation of `mainLoop` from `src/bot.go`, and the properties of the
watermark (`lastID`) and of the messages sent on the `send` channel.

Modelling conventions.

* A Go `string` is a Lean `String`; the only string operations the cycle
  performs are `strings.HasPrefix(_, "t3_")` and the slice `GUID[3:]`, which
  is taken only after the three ASCII bytes `t3_` were found, so dropping
  three bytes and dropping three characters agree.
* `uint64` values are `Nat`; the cycle only compares identifiers, the one
  place that does arithmetic (`Decode`) reduces modulo `2 ^ 64`.
* The network call `b.fetch(v)` is a parameter `fetch`, giving for each
  endpoint either the parsed feed or the error; `base36.Decode` is a
  parameter `decode` (an external library), with `Decode` as its instance.
* The channel `b.send` is the list of the messages sent on it, oldest first;
  a send on a full channel waits for the `printer` and then takes place, so
  the list records every send of a cycle in order.
-/

namespace Ircrssreddit

/-- An entry of a parsed feed (the two fields of `gofeed.Item` the bot reads). -/
structure Item where
  Title : String
  GUID : String
  deriving DecidableEq, Repr

/-- A parsed feed (`gofeed.Feed`), reduced to its `Items`. -/
structure Feed where
  Items : List Item
  deriving DecidableEq, Repr

/-- The fields of `bot` that the poll cycle reads or writes. `send` holds
the messages sent on the channel so far, oldest first. -/
structure bot where
  endpoints : List String
  lastID : Nat
  send : List String
  deriving DecidableEq, Repr

/-- The bot built by `New`: the configured endpoints, `lastID` at its zero
value and an empty `send` channel. -/
def New (endpoints : List String) : bot :=
  { endpoints := endpoints, lastID := 0, send := [] }

/-- Go's `strings.HasPrefix(s, p)`: `len(s) >= len(p) && s[:len(p)] == p`. -/
def HasPrefix (s p : String) : Bool :=
  decide (p.data.length ≤ s.data.length) && (s.data.take p.data.length == p.data)

/-- The slice `s[3:]`. -/
def slice3 (s : String) : String :=
  String.mk (s.data.drop 3)

/-- Value of one base-36 digit: `0`-`9`, then the letters in either case;
any other character counts as 0. -/
def digit36 (c : Char) : Nat :=
  if 48 ≤ c.toNat ∧ c.toNat ≤ 57 then c.toNat - 48
  else if 97 ≤ c.toNat ∧ c.toNat ≤ 122 then c.toNat - 87
  else if 65 ≤ c.toNat ∧ c.toNat ≤ 90 then c.toNat - 55
  else 0

/-- Modelled from the spec: `base36.Decode` of the external library
`github.com/martinlindhe/base36`, whose source is not part of this
repository. The spec fixes a positional base-36 decoding into an unsigned
64-bit integer (`c` is 12, `d` is 13, `b` is 11); the most significant digit
comes first and the sum wraps modulo `2 ^ 64`. -/
def Decode (s : String) : Nat :=
  s.data.foldl (fun acc c => (acc * 36 + digit36 c) % 2 ^ 64) 0

/-- The message of line 158: `fmt.Sprintf("[%s] %s https://redd.it/%s",
v.Title, v.GUID[3:])`. The format has three verbs and two operands, so Go
renders the third verb as `%!s(MISSING)`. -/
def message (v : Item) : String :=
  "[" ++ v.Title ++ "] " ++ slice3 v.GUID ++ " https://redd.it/%!s(MISSING)"

/-! ## `firstRun` -/

/-- Body of the inner loop of `firstRun` (lines 123-129) for one item. -/
def firstRunItem (decode : String → Nat) (b : bot) (v : Item) : bot :=
  if !HasPrefix v.GUID "t3_" then b
  else
    let decoded := decode (slice3 v.GUID)
    if b.lastID < decoded then { b with lastID := decoded } else b

/-- The outer loop of `firstRun` over the endpoints still to visit: the bot
as the loop leaves it, and the returned error (`none` is `nil`). -/
def firstRunLoop (fetch : String → Except String Feed) (decode : String → Nat) :
    List String → bot → bot × Option String
  | [], b => (b, none)
  | v :: rest, b =>
    match fetch v with
    | .error err => (b, some err)
    | .ok posts => firstRunLoop fetch decode rest (posts.Items.foldl (firstRunItem decode) b)

/-- The method `firstRun` (lines 115-133). -/
def firstRun (fetch : String → Except String Feed) (decode : String → Nat) (b : bot) :
    bot × Option String :=
  firstRunLoop fetch decode b.endpoints b

/-! ## `getPosts` -/

/-- The locals of `getPosts` together with the channel it sends on. `dup`
lists the keys of the Go map. -/
structure Cycle where
  tmpLargest : Nat
  dup : List Nat
  send : List String
  deriving DecidableEq, Repr

/-- Body of the inner loop of `getPosts` (lines 145-159) for one item; `b`
is the bot, whose `lastID` the loop reads and never writes. -/
def getPostsItem (decode : String → Nat) (b : bot) (c : Cycle) (v : Item) : Cycle :=
  if !HasPrefix v.GUID "t3_" then c
  else
    let decoded := decode (slice3 v.GUID)
    if decoded ∈ c.dup then c
    else
      { tmpLargest := if c.tmpLargest < decoded then decoded else c.tmpLargest
        dup := decoded :: c.dup
        send := if b.lastID < decoded then c.send ++ [message v] else c.send }

/-- The outer loop of `getPosts` over the endpoints still to visit: the
locals as the loop leaves them, and whether it ran to its end (`false` is
the `return` of line 142). -/
def getPostsLoop (fetch : String → Except String Feed) (decode : String → Nat) (b : bot) :
    List String → Cycle → Cycle × Bool
  | [], c => (c, true)
  | v :: rest, c =>
    match fetch v with
    | .error _ => (c, false)
    | .ok posts => getPostsLoop fetch decode b rest (posts.Items.foldl (getPostsItem decode b) c)

/-- The method `getPosts` (lines 135-163): messages are sent while the loop
runs, `lastID` is assigned only when the loop ran to its end. -/
def getPosts (fetch : String → Except String Feed) (decode : String → Nat) (b : bot) : bot :=
  match getPostsLoop fetch decode b b.endpoints
      { tmpLargest := 0, dup := [], send := b.send } with
  | (c, true) => { b with lastID := c.tmpLargest, send := c.send }
  | (c, false) => { b with send := c.send }

/-! ## The first trigger of `mainLoop` -/

/-- Go's `Time.Round(d)` on a time counted in nanoseconds since the zero
time: `d <= 0` returns the time unchanged; otherwise with `r` the remainder
of the time by `d`, `lessThanHalf(r, d)` rounds down and anything else
rounds up. -/
def Round (t d : Int) : Int :=
  if d ≤ 0 then t
  else
    let r := t % d
    if r + r < d then t + (-r) else t + (d - r)

/-- Lines 166-169 of `mainLoop`: `now1` and `now2` are the two readings of
`time.Now()`, `d` is `b.round`. -/
def firstTrigger (now1 now2 d : Int) : Int :=
  let round := Round now1 d
  if now2 > round then round + d else round

/-! ## Vocabulary of the specification -/

/-- Whether the fetch of an endpoint succeeds. -/
def succeeds (fetch : String → Except String Feed) (e : String) : Bool :=
  match fetch e with
  | .ok _ => true
  | .error _ => false

/-- The items an endpoint returns (none when its fetch fails). -/
def itemsOf (fetch : String → Except String Feed) (e : String) : List Item :=
  match fetch e with
  | .ok posts => posts.Items
  | .error _ => []

/-- All items returned by a list of endpoints: endpoint order, then feed order. -/
def returned (fetch : String → Except String Feed) (eps : List String) : List Item :=
  eps.flatMap (itemsOf fetch)

/-- The endpoints a cycle fetches successfully before its first failing fetch
(all of them when no fetch fails). -/
def reached (fetch : String → Except String Feed) (eps : List String) : List String :=
  eps.takeWhile (succeeds fetch)

/-- The error `firstRun` returns: that of the first failing fetch. -/
def firstError (fetch : String → Except String Feed) : List String → Option String
  | [] => none
  | e :: es =>
    match fetch e with
    | .error err => some err
    | .ok _ => firstError fetch es

/-- The items whose GUID carries the tag `t3_`. -/
def tagged (l : List Item) : List Item :=
  l.filter (fun v => HasPrefix v.GUID "t3_")

/-- The decoded id of a tagged item. -/
def idOf (decode : String → Nat) (v : Item) : Nat :=
  decode (slice3 v.GUID)

/-- The decoded ids of the tagged items of a list, duplicates included. -/
def ids (decode : String → Nat) (l : List Item) : List Nat :=
  (tagged l).map (idOf decode)

/-- Keep of every key its first occurrence: an element stays, and every later
element with its key goes. -/
def firstOccurrences {α : Type} (key : α → Nat) : List α → List α
  | [] => []
  | x :: xs => x :: (firstOccurrences key xs).filter (fun y => decide (key y ≠ key x))

/-- The maximum of a list of ids, 0 for the empty list. -/
def maxID : List Nat → Nat
  | [] => 0
  | n :: ns => max n (maxID ns)

/-- The new items of a cycle: of the tagged items, the first occurrence of
each decoded id, kept when the id exceeds the watermark `w`. -/
def newItems (decode : String → Nat) (w : Nat) (l : List Item) : List Item :=
  (firstOccurrences (idOf decode) (tagged l)).filter (fun v => decide (w < idOf decode v))

/-- The feed source with every untagged item removed from every feed. -/
def onlyTagged (fetch : String → Except String Feed) : String → Except String Feed :=
  fun e =>
    match fetch e with
    | .ok posts => .ok { Items := tagged posts.Items }
    | .error err => .error err

/-- The trigger time as the specification words it: the current time rounded
down to a multiple of `d`, one `d` later when that instant has passed. -/
def specTrigger (now d : Int) : Int :=
  let floor := d * (now / d)
  if floor < now then floor + d else floor

/-! ## Sample feeds -/

/-- Two healthy endpoints with an overlapping item, and every other endpoint
failing. -/
def sampleFetch : String → Except String Feed
  | "/r/golang" => .ok { Items := [⟨"D", "t3_d"⟩, ⟨"B", "t3_b"⟩, ⟨"ad", "promo"⟩] }
  | "/r/lean" => .ok { Items := [⟨"D again", "t3_d"⟩, ⟨"E", "t3_e"⟩] }
  | _ => .error "fetch response error: 503 Service Unavailable"

/-- One endpoint returning the items `t3_d` and `t3_b`. -/
def scenarioFetch : String → Except String Feed :=
  fun _ => .ok { Items := [⟨"D", "t3_d"⟩, ⟨"B", "t3_b"⟩] }

/-- One endpoint returning items with the decoded ids 5, 12 and 7. -/
def bootFetch : String → Except String Feed :=
  fun _ => .ok { Items := [⟨"five", "t3_5"⟩, ⟨"twelve", "t3_c"⟩, ⟨"seven", "t3_7"⟩] }

/-! ## Lemmas on the vocabulary -/

theorem tagged_cons_of_tag (v : Item) (l : List Item) (h : HasPrefix v.GUID "t3_" = true) :
    tagged (v :: l) = v :: tagged l := by
  simp [tagged, h]

theorem tagged_cons_of_not_tag (v : Item) (l : List Item)
    (h : ¬ HasPrefix v.GUID "t3_" = true) : tagged (v :: l) = tagged l := by
  simp [tagged, h]

theorem tagged_append (l₁ l₂ : List Item) : tagged (l₁ ++ l₂) = tagged l₁ ++ tagged l₂ := by
  simp [tagged]

theorem tagged_tagged (l : List Item) : tagged (tagged l) = tagged l := by
  simp [tagged, List.filter_filter]

theorem mem_firstOccurrences {α : Type} (key : α → Nat) (l : List α) (x : α)
    (h : x ∈ firstOccurrences key l) : x ∈ l := by
  induction l with
  | nil => simp [firstOccurrences] at h
  | cons y ys ih =>
    simp only [firstOccurrences, List.mem_cons, List.mem_filter] at h
    rcases h with h | h
    · exact List.mem_cons.mpr (Or.inl h)
    · exact List.mem_cons.mpr (Or.inr (ih h.1))

theorem key_mem_firstOccurrences {α : Type} (key : α → Nat) (l : List α) (n : Nat) :
    n ∈ (firstOccurrences key l).map key ↔ n ∈ l.map key := by
  induction l with
  | nil => simp [firstOccurrences]
  | cons y ys ih =>
    simp only [firstOccurrences, List.map_cons, List.mem_cons]
    constructor
    · rintro (h | h)
      · exact Or.inl h
      · obtain ⟨x, hx, rfl⟩ := List.mem_map.mp h
        exact Or.inr (List.mem_map.mpr ⟨x, mem_firstOccurrences key ys x (List.mem_filter.mp hx).1, rfl⟩)
    · rintro (h | h)
      · exact Or.inl h
      · by_cases hn : n = key y
        · exact Or.inl hn
        · obtain ⟨x, hx, rfl⟩ := List.mem_map.mp (ih.mpr h)
          exact Or.inr (List.mem_map.mpr ⟨x, List.mem_filter.mpr ⟨hx, by simpa using hn⟩, rfl⟩)

theorem nodup_firstOccurrences {α : Type} (key : α → Nat) (l : List α) :
    ((firstOccurrences key l).map key).Nodup := by
  induction l with
  | nil => simp [firstOccurrences]
  | cons y ys ih =>
    simp only [firstOccurrences, List.map_cons, List.nodup_cons]
    constructor
    · intro h
      obtain ⟨x, hx, hk⟩ := List.mem_map.mp h
      have := (List.mem_filter.mp hx).2
      simp at this
      exact this hk
    · exact (List.filter_sublist _).map key |>.nodup ih

theorem le_maxID (l : List Nat) (n : Nat) (h : n ∈ l) : n ≤ maxID l := by
  induction l with
  | nil => simp at h
  | cons m ms ih =>
    simp only [maxID]
    rcases List.mem_cons.mp h with h | h
    · subst h; exact le_max_left _ _
    · exact le_trans (ih h) (le_max_right _ _)

theorem maxID_mem (l : List Nat) (h : l ≠ []) : maxID l ∈ l := by
  induction l with
  | nil => exact absurd rfl h
  | cons m ms ih =>
    simp only [maxID]
    by_cases hms : ms = []
    · subst hms; simp [maxID]
    · rcases max_choice m (maxID ms) with hc | hc
      · rw [hc]; exact List.mem_cons_self _ _
      · rw [hc]; exact List.mem_cons_of_mem _ (ih hms)

theorem reached_eq_self (fetch : String → Except String Feed) (eps : List String)
    (hok : ∀ e ∈ eps, ∃ posts, fetch e = .ok posts) : reached fetch eps = eps := by
  unfold reached
  rw [List.takeWhile_eq_self_iff]
  intro e he
  obtain ⟨posts, hp⟩ := hok e he
  simp [succeeds, hp]

theorem all_succeeds_of_ok (fetch : String → Except String Feed) (eps : List String)
    (hok : ∀ e ∈ eps, ∃ posts, fetch e = .ok posts) : eps.all (succeeds fetch) = true := by
  rw [List.all_eq_true]
  intro e he
  obtain ⟨posts, hp⟩ := hok e he
  simp [succeeds, hp]

theorem all_succeeds_of_error (fetch : String → Except String Feed) (eps : List String)
    (hfail : ∃ e ∈ eps, ∃ err, fetch e = .error err) : eps.all (succeeds fetch) = false := by
  obtain ⟨e, he, err, hp⟩ := hfail
  rw [List.all_eq_false]
  exact ⟨e, he, by simp [succeeds, hp]⟩

theorem succeeds_onlyTagged (fetch : String → Except String Feed) :
    succeeds (onlyTagged fetch) = succeeds fetch := by
  funext e
  unfold succeeds onlyTagged
  cases fetch e <;> rfl

theorem itemsOf_onlyTagged (fetch : String → Except String Feed) (e : String) :
    itemsOf (onlyTagged fetch) e = tagged (itemsOf fetch e) := by
  unfold itemsOf onlyTagged
  cases fetch e <;> simp [tagged]

theorem returned_onlyTagged (fetch : String → Except String Feed) (eps : List String) :
    returned (onlyTagged fetch) eps = tagged (returned fetch eps) := by
  induction eps with
  | nil => simp [returned, tagged]
  | cons e es ih =>
    simp only [returned, List.flatMap_cons] at ih ⊢
    rw [tagged_append, ih, itemsOf_onlyTagged]

/-! ## The loops as folds over the returned items -/

theorem firstError_onlyTagged (fetch : String → Except String Feed) (eps : List String) :
    firstError (onlyTagged fetch) eps = firstError fetch eps := by
  induction eps with
  | nil => rfl
  | cons e es ih =>
    simp only [firstError, onlyTagged] at ih ⊢
    cases h : fetch e <;> simp [ih]

theorem firstError_eq_none (fetch : String → Except String Feed) (eps : List String)
    (hok : ∀ e ∈ eps, ∃ posts, fetch e = .ok posts) : firstError fetch eps = none := by
  induction eps with
  | nil => rfl
  | cons e es ih =>
    obtain ⟨posts, hp⟩ := hok e (List.mem_cons_self _ _)
    simp only [firstError, hp]
    exact ih (fun e' he' => hok e' (List.mem_cons_of_mem _ he'))

theorem firstError_isSome (fetch : String → Except String Feed) (eps : List String)
    (hfail : ∃ e ∈ eps, ∃ err, fetch e = .error err) :
    ∃ err, firstError fetch eps = some err ∧ ∃ e ∈ eps, fetch e = .error err := by
  induction eps with
  | nil => obtain ⟨e, he, _⟩ := hfail; simp at he
  | cons e es ih =>
    cases h : fetch e with
    | error err =>
      exact ⟨err, by simp [firstError, h], e, List.mem_cons_self _ _, h⟩
    | ok posts =>
      obtain ⟨e', he', err', hp'⟩ := hfail
      rcases List.mem_cons.mp he' with heq | hmem
      · subst heq; rw [h] at hp'; cases hp'
      · obtain ⟨err, h1, e₂, h2, h3⟩ := ih ⟨e', hmem, err', hp'⟩
        exact ⟨err, by simp [firstError, h, h1], e₂, List.mem_cons_of_mem _ h2, h3⟩

theorem getPostsLoop_eq (fetch : String → Except String Feed) (decode : String → Nat) (b : bot)
    (eps : List String) (c : Cycle) :
    getPostsLoop fetch decode b eps c =
      ((returned fetch (reached fetch eps)).foldl (getPostsItem decode b) c,
        eps.all (succeeds fetch)) := by
  induction eps generalizing c with
  | nil => simp [getPostsLoop, returned, reached]
  | cons e es ih =>
    unfold getPostsLoop
    cases h : fetch e with
    | error err => simp [returned, reached, succeeds, h]
    | ok posts =>
      simp only [returned, reached] at ih
      simp [ih, returned, reached, succeeds, h, itemsOf, List.foldl_append]

theorem firstRunLoop_eq (fetch : String → Except String Feed) (decode : String → Nat)
    (eps : List String) (b : bot) :
    firstRunLoop fetch decode eps b =
      ((returned fetch (reached fetch eps)).foldl (firstRunItem decode) b,
        firstError fetch eps) := by
  induction eps generalizing b with
  | nil => simp [firstRunLoop, returned, reached, firstError]
  | cons e es ih =>
    unfold firstRunLoop
    cases h : fetch e with
    | error err => simp [returned, reached, succeeds, firstError, h]
    | ok posts =>
      simp only [returned, reached] at ih
      simp [ih, returned, reached, succeeds, firstError, h, itemsOf, List.foldl_append]

/-! ## The inner loops -/

theorem foldl_firstRunItem (decode : String → Nat) (l : List Item) (b : bot) :
    l.foldl (firstRunItem decode) b = { b with lastID := max b.lastID (maxID (ids decode l)) } := by
  induction l generalizing b with
  | nil => simp [ids, tagged, maxID]
  | cons v vs ih =>
    rw [List.foldl_cons, ih]
    by_cases hp : HasPrefix v.GUID "t3_" = true
    · simp only [ids, tagged_cons_of_tag v vs hp, List.map_cons, maxID, firstRunItem, hp, idOf]
      by_cases hlt : b.lastID < decode (slice3 v.GUID)
      · simp [hlt]; omega
      · simp [hlt]; omega
    · simp [ids, tagged_cons_of_not_tag v vs hp, firstRunItem, hp]

theorem foldl_getPostsItem_tagged (decode : String → Nat) (b : bot) (l : List Item) (c : Cycle) :
    (tagged l).foldl (getPostsItem decode b) c = l.foldl (getPostsItem decode b) c := by
  induction l generalizing c with
  | nil => rfl
  | cons v vs ih =>
    by_cases hp : HasPrefix v.GUID "t3_" = true
    · rw [tagged_cons_of_tag v vs hp, List.foldl_cons, List.foldl_cons, ih]
    · rw [tagged_cons_of_not_tag v vs hp, List.foldl_cons, ih]
      simp [getPostsItem, hp]

theorem foldl_firstRunItem_tagged (decode : String → Nat) (l : List Item) (b : bot) :
    (tagged l).foldl (firstRunItem decode) b = l.foldl (firstRunItem decode) b := by
  rw [foldl_firstRunItem, foldl_firstRunItem, ids, ids, tagged_tagged]

theorem foldl_getPostsItem_send (decode : String → Nat) (b : bot) (l : List Item) (c : Cycle) :
    (l.foldl (getPostsItem decode b) c).send =
      c.send ++ (((firstOccurrences (idOf decode) (tagged l)).filter
        (fun v => decide (idOf decode v ∉ c.dup))).filter
        (fun v => decide (b.lastID < idOf decode v))).map message := by
  induction l generalizing c with
  | nil => simp [tagged, firstOccurrences]
  | cons v vs ih =>
    rw [List.foldl_cons, ih]
    by_cases hp : HasPrefix v.GUID "t3_" = true
    · rw [tagged_cons_of_tag v vs hp]
      by_cases hd : decode (slice3 v.GUID) ∈ c.dup
      · have hc : getPostsItem decode b c v = c := by simp [getPostsItem, hp, hd]
        rw [hc]
        simp only [firstOccurrences, List.filter_cons, idOf, hd, not_true_eq_false,
          decide_False, Bool.false_eq_true, if_false, List.filter_filter]
        congr 3
        funext x
        by_cases hx : decode (slice3 x.GUID) ∈ c.dup
        · simp [hx]
        · have : decode (slice3 x.GUID) ≠ decode (slice3 v.GUID) := fun h => hx (h ▸ hd)
          simp [hx, this]
      · simp only [firstOccurrences, List.filter_cons, idOf, hd, not_false_eq_true,
          decide_True, if_true, List.filter_filter, getPostsItem, hp, Bool.not_true,
          Bool.false_eq_true, if_false, List.mem_cons, not_or]
        by_cases hlt : b.lastID < decode (slice3 v.GUID)
        · simp only [hlt, if_true, decide_True, List.map_cons, List.append_assoc,
            List.singleton_append]
          congr 4
          funext x
          by_cases hx : decode (slice3 x.GUID) ∈ c.dup <;>
            by_cases hk : decode (slice3 x.GUID) = decode (slice3 v.GUID) <;> simp [hx, hk]
        · simp only [hlt, if_false, decide_False, Bool.false_eq_true]
          congr 3
          funext x
          by_cases hx : decode (slice3 x.GUID) ∈ c.dup <;>
            by_cases hk : decode (slice3 x.GUID) = decode (slice3 v.GUID) <;> simp [hx, hk]
    · rw [tagged_cons_of_not_tag v vs hp]
      simp [getPostsItem, hp]

theorem foldl_getPostsItem_tmpLargest (decode : String → Nat) (b : bot) (l : List Item)
    (c : Cycle) (hc : ∀ n ∈ c.dup, n ≤ c.tmpLargest) :
    (l.foldl (getPostsItem decode b) c).tmpLargest = max c.tmpLargest (maxID (ids decode l)) := by
  induction l generalizing c with
  | nil => simp [ids, tagged, maxID]
  | cons v vs ih =>
    rw [List.foldl_cons]
    by_cases hp : HasPrefix v.GUID "t3_" = true
    · simp only [ids, tagged_cons_of_tag v vs hp, List.map_cons, maxID, idOf]
      by_cases hd : decode (slice3 v.GUID) ∈ c.dup
      · have hcv : getPostsItem decode b c v = c := by simp [getPostsItem, hp, hd]
        rw [hcv, ih c hc]
        have := hc _ hd
        simp only [ids, idOf]
        omega
      · rw [ih]
        · simp only [getPostsItem, hp, hd, Bool.not_true, Bool.false_eq_true, if_false, ids, idOf]
          split <;> omega
        · intro n hn
          simp only [getPostsItem, hp, hd, Bool.not_true, Bool.false_eq_true, if_false,
            List.mem_cons] at hn ⊢
          rcases hn with hn | hn
          · subst hn; split <;> omega
          · have := hc n hn
            split <;> omega
    · have hcv : getPostsItem decode b c v = c := by simp [getPostsItem, hp]
      rw [hcv, ih c hc]
      simp [ids, tagged_cons_of_not_tag v vs hp]

theorem mem_firstOccurrences_split {α : Type} (key : α → Nat) (l : List α) (v : α)
    (h : v ∈ firstOccurrences key l) :
    ∃ l₁ l₂, l = l₁ ++ v :: l₂ ∧ ∀ u ∈ l₁, key u ≠ key v := by
  induction l with
  | nil => simp [firstOccurrences] at h
  | cons y ys ih =>
    simp only [firstOccurrences, List.mem_cons, List.mem_filter] at h
    rcases h with h | ⟨hv, hk⟩
    · subst h
      exact ⟨[], ys, rfl, by simp⟩
    · obtain ⟨l₁, l₂, hl, hne⟩ := ih hv
      refine ⟨y :: l₁, l₂, by simp [hl], ?_⟩
      intro u hu
      rcases List.mem_cons.mp hu with hu | hu
      · subst hu
        have hk' : key v ≠ key u := by simpa using hk
        exact fun h => hk' h.symm
      · exact hne u hu

theorem firstOccurrences_sublist {α : Type} (key : α → Nat) (l : List α) :
    (firstOccurrences key l).Sublist l := by
  induction l with
  | nil => simp [firstOccurrences]
  | cons y ys ih =>
    simp only [firstOccurrences]
    exact ((List.filter_sublist _).trans ih).cons₂ y

/-! ## The two cycles in closed form -/

theorem getPosts_endpoints (fetch : String → Except String Feed) (decode : String → Nat)
    (b : bot) : (getPosts fetch decode b).endpoints = b.endpoints := by
  unfold getPosts
  split <;> rfl

theorem getPosts_send_eq (fetch : String → Except String Feed) (decode : String → Nat)
    (b : bot) :
    (getPosts fetch decode b).send =
      b.send ++ (newItems decode b.lastID
        (returned fetch (reached fetch b.endpoints))).map message := by
  have hfold := foldl_getPostsItem_send decode b (returned fetch (reached fetch b.endpoints))
    { tmpLargest := 0, dup := [], send := b.send }
  have hloop := getPostsLoop_eq fetch decode b b.endpoints
    { tmpLargest := 0, dup := [], send := b.send }
  simp only [List.not_mem_nil, not_false_eq_true, decide_True, List.filter_true] at hfold
  unfold getPosts newItems
  rw [hloop]
  cases b.endpoints.all (succeeds fetch) <;> exact hfold

theorem getPosts_lastID_of_ok (fetch : String → Except String Feed) (decode : String → Nat)
    (b : bot) (hok : ∀ e ∈ b.endpoints, ∃ posts, fetch e = .ok posts) :
    (getPosts fetch decode b).lastID = maxID (ids decode (returned fetch b.endpoints)) := by
  have hfold := foldl_getPostsItem_tmpLargest decode b (returned fetch b.endpoints)
    { tmpLargest := 0, dup := [], send := b.send } (by simp)
  have hloop := getPostsLoop_eq fetch decode b b.endpoints
    { tmpLargest := 0, dup := [], send := b.send }
  rw [reached_eq_self fetch b.endpoints hok, all_succeeds_of_ok fetch b.endpoints hok] at hloop
  unfold getPosts
  rw [hloop]
  simpa using hfold

theorem getPosts_lastID_of_error (fetch : String → Except String Feed)
    (decode : String → Nat) (b : bot)
    (hfail : ∃ e ∈ b.endpoints, ∃ err, fetch e = .error err) :
    (getPosts fetch decode b).lastID = b.lastID := by
  have hloop := getPostsLoop_eq fetch decode b b.endpoints
    { tmpLargest := 0, dup := [], send := b.send }
  rw [all_succeeds_of_error fetch b.endpoints hfail] at hloop
  unfold getPosts
  rw [hloop]

theorem firstRun_eq (fetch : String → Except String Feed) (decode : String → Nat) (b : bot) :
    firstRun fetch decode b =
      ({ b with
          lastID := max b.lastID (maxID (ids decode (returned fetch (reached fetch b.endpoints)))) },
        firstError fetch b.endpoints) := by
  unfold firstRun
  rw [firstRunLoop_eq, foldl_firstRunItem]

theorem firstRun_lastID_le (fetch : String → Except String Feed) (decode : String → Nat)
    (b : bot) : b.lastID ≤ (firstRun fetch decode b).1.lastID := by
  rw [firstRun_eq]
  exact le_max_left _ _

theorem newItems_nodup (decode : String → Nat) (w : Nat) (l : List Item) :
    ((newItems decode w l).map (idOf decode)).Nodup :=
  ((List.filter_sublist _).map (idOf decode)).nodup (nodup_firstOccurrences _ _)

theorem mem_newItems_ids (decode : String → Nat) (w : Nat) (l : List Item) (n : Nat) :
    n ∈ (newItems decode w l).map (idOf decode) ↔ w < n ∧ n ∈ ids decode l := by
  unfold newItems ids
  constructor
  · intro h
    obtain ⟨v, hv, rfl⟩ := List.mem_map.mp h
    obtain ⟨hv1, hv2⟩ := List.mem_filter.mp hv
    exact ⟨by simpa using hv2,
      (key_mem_firstOccurrences _ _ _).mp (List.mem_map.mpr ⟨v, hv1, rfl⟩)⟩
  · rintro ⟨hw, hn⟩
    obtain ⟨v, hv, rfl⟩ := List.mem_map.mp ((key_mem_firstOccurrences _ _ _).mpr hn)
    exact List.mem_map.mpr ⟨v, List.mem_filter.mpr ⟨hv, by simpa using hw⟩, rfl⟩

theorem newItems_first (decode : String → Nat) (w : Nat) (l : List Item) (v : Item)
    (h : v ∈ newItems decode w l) :
    ∃ l₁ l₂, tagged l = l₁ ++ v :: l₂ ∧ ∀ u ∈ l₁, idOf decode u ≠ idOf decode v :=
  mem_firstOccurrences_split _ _ _ (List.mem_filter.mp h).1

theorem newItems_sublist (decode : String → Nat) (w : Nat) (l : List Item) :
    (newItems decode w l).Sublist l :=
  ((List.filter_sublist _).trans (firstOccurrences_sublist _ _)).trans (List.filter_sublist _)

theorem newItems_eq_nil (decode : String → Nat) (w : Nat) (l : List Item)
    (h : maxID (ids decode l) ≤ w) : newItems decode w l = [] := by
  unfold newItems
  rw [List.filter_eq_nil_iff]
  intro v hv
  have hm : idOf decode v ∈ ids decode l :=
    List.mem_map.mpr ⟨v, mem_firstOccurrences _ _ _ hv, rfl⟩
  have := le_maxID _ _ hm
  simp
  omega

theorem reached_split (fetch : String → Except String Feed) (eps : List String)
    (hfail : ∃ e ∈ eps, ∃ err, fetch e = .error err) :
    ∃ e rest err, eps = reached fetch eps ++ e :: rest ∧ fetch e = .error err := by
  induction eps with
  | nil => obtain ⟨e, he, _⟩ := hfail; simp at he
  | cons e es ih =>
    cases h : fetch e with
    | error err => exact ⟨e, es, err, by simp [reached, succeeds, h], h⟩
    | ok posts =>
      obtain ⟨e', he', err', hp'⟩ := hfail
      rcases List.mem_cons.mp he' with heq | hmem
      · subst heq; rw [h] at hp'; cases hp'
      · obtain ⟨e₁, rest, err, h1, h2⟩ := ih ⟨e', hmem, err', hp'⟩
        refine ⟨e₁, rest, err, ?_, h2⟩
        have hr : reached fetch (e :: es) = e :: reached fetch es := by
          simp [reached, succeeds, h]
        rw [hr, List.cons_append, ← h1]

theorem reached_ok (fetch : String → Except String Feed) (eps : List String) :
    ∀ e ∈ reached fetch eps, ∃ posts, fetch e = .ok posts := by
  intro e he
  have hs : succeeds fetch e = true := List.mem_takeWhile_imp he
  unfold succeeds at hs
  cases h : fetch e with
  | error err => rw [h] at hs; cases hs
  | ok posts => exact ⟨posts, rfl⟩

theorem getPosts_onlyTagged (fetch : String → Except String Feed) (decode : String → Nat)
    (b : bot) : getPosts (onlyTagged fetch) decode b = getPosts fetch decode b := by
  unfold getPosts
  rw [getPostsLoop_eq, getPostsLoop_eq]
  unfold reached
  rw [succeeds_onlyTagged, returned_onlyTagged, foldl_getPostsItem_tagged]

theorem firstRun_onlyTagged (fetch : String → Except String Feed) (decode : String → Nat)
    (b : bot) : firstRun (onlyTagged fetch) decode b = firstRun fetch decode b := by
  unfold firstRun
  rw [firstRunLoop_eq, firstRunLoop_eq, firstError_onlyTagged]
  unfold reached
  rw [succeeds_onlyTagged, returned_onlyTagged, foldl_firstRunItem_tagged]

theorem sampleFetch_ok :
    ∀ e ∈ ["/r/golang", "/r/lean"], ∃ posts, sampleFetch e = .ok posts := by
  intro e he
  simp only [List.mem_cons, List.mem_singleton, List.not_mem_nil, or_false] at he
  rcases he with rfl | rfl <;> exact ⟨_, rfl⟩

theorem sampleFetch_down (eps : List String) (h : "/r/down" ∈ eps) :
    ∃ e ∈ eps, ∃ err, sampleFetch e = .error err :=
  ⟨"/r/down", h, _, rfl⟩

theorem scenarioFetch_ok (eps : List String) :
    ∀ e ∈ eps, ∃ posts, scenarioFetch e = .ok posts :=
  fun _ _ => ⟨_, rfl⟩

theorem bootFetch_ok (eps : List String) :
    ∀ e ∈ eps, ∃ posts, bootFetch e = .ok posts :=
  fun _ _ => ⟨_, rfl⟩

theorem emod_bounds (t d : Int) (hd : 0 < d) :
    0 ≤ t % d ∧ t % d < d ∧ d * (t / d) + t % d = t :=
  ⟨Int.emod_nonneg t (ne_of_gt hd), Int.emod_lt_of_pos t hd, Int.ediv_add_emod t d⟩

/-! ## The claims -/

/-- C1: when every fetch succeeds, `getPosts` sends exactly the messages of
the new items of the cycle, in order: of the `t3_` items returned (endpoint
order, then feed order) the first occurrence of each decoded id, kept when the
id exceeds the watermark the cycle started with. So the ids of the messages
are pairwise distinct, an id has a message exactly when it exceeds the
watermark and belongs to a `t3_` item, the item of a message has no item of
the same id before it, and the items of the messages come in the order in
which they were returned. -/
theorem getPosts_sends_new_items (fetch : String → Except String Feed)
    (decode : String → Nat) (b : bot)
    (hok : ∀ e ∈ b.endpoints, ∃ posts, fetch e = .ok posts) :
    (getPosts fetch decode b).send =
        b.send ++ (newItems decode b.lastID (returned fetch b.endpoints)).map message ∧
      ((newItems decode b.lastID (returned fetch b.endpoints)).map (idOf decode)).Nodup ∧
      (∀ n, n ∈ (newItems decode b.lastID (returned fetch b.endpoints)).map (idOf decode) ↔
        b.lastID < n ∧ n ∈ ids decode (returned fetch b.endpoints)) ∧
      (∀ v ∈ newItems decode b.lastID (returned fetch b.endpoints),
        ∃ l₁ l₂, tagged (returned fetch b.endpoints) = l₁ ++ v :: l₂ ∧
          ∀ u ∈ l₁, idOf decode u ≠ idOf decode v) ∧
      (newItems decode b.lastID (returned fetch b.endpoints)).Sublist
        (returned fetch b.endpoints) := by
  refine ⟨?_, newItems_nodup _ _ _, mem_newItems_ids _ _ _,
    fun v hv => newItems_first _ _ _ v hv, newItems_sublist _ _ _⟩
  have h := getPosts_send_eq fetch decode b
  rwa [reached_eq_self fetch b.endpoints hok] at h

/-- Witness of C1: two endpoints that both return `t3_d` give one message for
it; with watermark 12 and the items `t3_d`, `t3_b` only `t3_d` has a message. -/
theorem getPosts_sends_new_items_witness :
    (∀ e ∈ ["/r/golang", "/r/lean"], ∃ posts, sampleFetch e = .ok posts) ∧
      (getPosts sampleFetch Decode ⟨["/r/golang", "/r/lean"], 12, []⟩).send =
        ["[D] d https://redd.it/%!s(MISSING)", "[E] e https://redd.it/%!s(MISSING)"] ∧
      (getPosts scenarioFetch Decode ⟨["/r/golang"], 12, []⟩).send =
        ["[D] d https://redd.it/%!s(MISSING)"] :=
  ⟨sampleFetch_ok,
    (getPosts_sends_new_items sampleFetch Decode ⟨["/r/golang", "/r/lean"], 12, []⟩
      sampleFetch_ok).1.trans (by decide),
    (getPosts_sends_new_items scenarioFetch Decode ⟨["/r/golang"], 12, []⟩
      (scenarioFetch_ok _)).1.trans (by decide)⟩

/-- C2: when every fetch succeeds, the watermark after `getPosts` is the
maximum decoded id of the `t3_` items returned in the cycle, duplicates
included (0 when there is no such item): it bounds every such id and, when
there is one, it is one of them. -/
theorem getPosts_watermark_is_cycle_max (fetch : String → Except String Feed)
    (decode : String → Nat) (b : bot)
    (hok : ∀ e ∈ b.endpoints, ∃ posts, fetch e = .ok posts) :
    (getPosts fetch decode b).lastID = maxID (ids decode (returned fetch b.endpoints)) ∧
      (∀ n ∈ ids decode (returned fetch b.endpoints), n ≤ (getPosts fetch decode b).lastID) ∧
      (ids decode (returned fetch b.endpoints) ≠ [] →
        (getPosts fetch decode b).lastID ∈ ids decode (returned fetch b.endpoints)) := by
  rw [getPosts_lastID_of_ok fetch decode b hok]
  exact ⟨rfl, fun n hn => le_maxID _ n hn, fun h => maxID_mem _ h⟩

/-- Witness of C2: watermark 12 with the items `t3_d` and `t3_b` ends at 13. -/
theorem getPosts_watermark_is_cycle_max_witness :
    (∀ e ∈ ["/r/golang"], ∃ posts, scenarioFetch e = .ok posts) ∧
      (getPosts scenarioFetch Decode ⟨["/r/golang"], 12, []⟩).lastID = 13 :=
  ⟨scenarioFetch_ok _,
    (getPosts_watermark_is_cycle_max scenarioFetch Decode ⟨["/r/golang"], 12, []⟩
      (scenarioFetch_ok _)).1.trans (by decide)⟩

/-- C3 (the code at the failing input): the first endpoint returns `t3_d`
above the watermark 12 and the second fetch fails. The message for `t3_d` was
sent before the failure, so the cycle sends one message and not zero; the
watermark stays 12, and the next cycle with the same failure sends the same
message once more. -/
theorem getPosts_sends_before_failure :
    (∃ e ∈ ["/r/golang", "/r/down"], ∃ err, sampleFetch e = .error err) ∧
      (getPosts sampleFetch Decode ⟨["/r/golang", "/r/down"], 12, []⟩).send =
        ["[D] d https://redd.it/%!s(MISSING)"] ∧
      (getPosts sampleFetch Decode ⟨["/r/golang", "/r/down"], 12, []⟩).send ≠ [] ∧
      (getPosts sampleFetch Decode ⟨["/r/golang", "/r/down"], 12, []⟩).lastID = 12 ∧
      (getPosts sampleFetch Decode
        (getPosts sampleFetch Decode ⟨["/r/golang", "/r/down"], 12, []⟩)).send =
        ["[D] d https://redd.it/%!s(MISSING)", "[D] d https://redd.it/%!s(MISSING)"] :=
  ⟨sampleFetch_down _ (by decide), by decide, by decide, by decide, by decide⟩

/-- What a cycle with a failing fetch sends: the messages of the new items
of the endpoints fetched before the first failing one (first occurrence of
each decoded id above the starting watermark, in order), and nothing for the
failing endpoint or those after it. The endpoints fetched are the longest run
of succeeding endpoints at the head of the list; the one after them fails. -/
theorem getPosts_failure_sends_reached (fetch : String → Except String Feed)
    (decode : String → Nat) (b : bot)
    (hfail : ∃ e ∈ b.endpoints, ∃ err, fetch e = .error err) :
    (getPosts fetch decode b).send =
        b.send ++ (newItems decode b.lastID
          (returned fetch (reached fetch b.endpoints))).map message ∧
      (∀ n, n ∈ (newItems decode b.lastID
            (returned fetch (reached fetch b.endpoints))).map (idOf decode) ↔
        b.lastID < n ∧ n ∈ ids decode (returned fetch (reached fetch b.endpoints))) ∧
      (∀ e ∈ reached fetch b.endpoints, ∃ posts, fetch e = .ok posts) ∧
      (∃ e rest err, b.endpoints = reached fetch b.endpoints ++ e :: rest ∧
        fetch e = .error err) :=
  ⟨getPosts_send_eq fetch decode b, mem_newItems_ids _ _ _, reached_ok fetch b.endpoints,
    reached_split fetch b.endpoints hfail⟩

/-- C4: when some fetch fails, `getPosts` leaves the watermark as it was before
the cycle, whatever the endpoints fetched before the failure returned. -/
theorem getPosts_failure_keeps_watermark (fetch : String → Except String Feed)
    (decode : String → Nat) (b : bot)
    (hfail : ∃ e ∈ b.endpoints, ∃ err, fetch e = .error err) :
    (getPosts fetch decode b).lastID = b.lastID :=
  getPosts_lastID_of_error fetch decode b hfail

/-- Witness of C4: the first endpoint returns `t3_d` (13), the second fetch
fails, and the watermark stays 12. -/
theorem getPosts_failure_keeps_watermark_witness :
    (∃ e ∈ ["/r/golang", "/r/down"], ∃ err, sampleFetch e = .error err) ∧
      (getPosts sampleFetch Decode ⟨["/r/golang", "/r/down"], 12, []⟩).lastID = 12 :=
  ⟨sampleFetch_down _ (by decide),
    getPosts_failure_keeps_watermark sampleFetch Decode ⟨["/r/golang", "/r/down"], 12, []⟩
      (sampleFetch_down _ (by decide))⟩

/-- C5: on the bot `New` builds (watermark 0, nothing sent), when every fetch
succeeds `firstRun` returns no error, leaves the watermark at the maximum
decoded id of the `t3_` items of all endpoints (0 when there is none) and
sends nothing. -/
theorem firstRun_bootstrap (fetch : String → Except String Feed) (decode : String → Nat)
    (endpoints : List String)
    (hok : ∀ e ∈ endpoints, ∃ posts, fetch e = .ok posts) :
    (firstRun fetch decode (New endpoints)).2 = none ∧
      (firstRun fetch decode (New endpoints)).1.lastID =
        maxID (ids decode (returned fetch endpoints)) ∧
      (firstRun fetch decode (New endpoints)).1.send = [] := by
  rw [firstRun_eq]
  simp only [New, reached_eq_self fetch endpoints hok, firstError_eq_none fetch endpoints hok]
  simp

/-- Witness of C5: items with the decoded ids 5, 12 and 7 leave the watermark
at 12 and the channel empty. -/
theorem firstRun_bootstrap_witness :
    (∀ e ∈ ["/r/golang"], ∃ posts, bootFetch e = .ok posts) ∧
      ids Decode (returned bootFetch ["/r/golang"]) = [5, 12, 7] ∧
      (firstRun bootFetch Decode (New ["/r/golang"])).2 = none ∧
      (firstRun bootFetch Decode (New ["/r/golang"])).1.lastID = 12 ∧
      (firstRun bootFetch Decode (New ["/r/golang"])).1.send = [] :=
  ⟨bootFetch_ok _, by decide,
    (firstRun_bootstrap bootFetch Decode ["/r/golang"] (bootFetch_ok _)).1,
    (firstRun_bootstrap bootFetch Decode ["/r/golang"] (bootFetch_ok _)).2.1.trans (by decide),
    (firstRun_bootstrap bootFetch Decode ["/r/golang"] (bootFetch_ok _)).2.2⟩

/-- Counterexample to C6: the first endpoint returns `t3_d` and the second
fetch fails; `firstRun` returns the error, and the watermark, 0 before the
call, is 13 after it. -/
theorem firstRun_failure_moves_watermark :
    (∃ e ∈ ["/r/golang", "/r/down"], ∃ err, sampleFetch e = .error err) ∧
      (firstRun sampleFetch Decode ⟨["/r/golang", "/r/down"], 0, []⟩).2 =
        some "fetch response error: 503 Service Unavailable" ∧
      (firstRun sampleFetch Decode ⟨["/r/golang", "/r/down"], 0, []⟩).1.lastID = 13 ∧
      (firstRun sampleFetch Decode ⟨["/r/golang", "/r/down"], 0, []⟩).1.lastID ≠
        (bot.mk ["/r/golang", "/r/down"] 0 []).lastID :=
  ⟨sampleFetch_down _ (by decide), by decide, by decide, by decide⟩

/-- C6 (amended): when some fetch fails, `firstRun` returns the error of a
failing fetch and leaves the watermark at the maximum of its value before the
call and the decoded ids of the `t3_` items of the endpoints fetched before
the first failing one; so the watermark is not lower than before, and is
unchanged when no such id exceeds it. Nothing is sent. -/
theorem firstRun_failure_watermark (fetch : String → Except String Feed)
    (decode : String → Nat) (b : bot)
    (hfail : ∃ e ∈ b.endpoints, ∃ err, fetch e = .error err) :
    (∃ err, (firstRun fetch decode b).2 = some err ∧ ∃ e ∈ b.endpoints, fetch e = .error err) ∧
      (firstRun fetch decode b).1.lastID =
        max b.lastID (maxID (ids decode (returned fetch (reached fetch b.endpoints)))) ∧
      b.lastID ≤ (firstRun fetch decode b).1.lastID ∧
      (maxID (ids decode (returned fetch (reached fetch b.endpoints))) ≤ b.lastID →
        (firstRun fetch decode b).1.lastID = b.lastID) ∧
      (firstRun fetch decode b).1.send = b.send ∧
      (∃ e rest err, b.endpoints = reached fetch b.endpoints ++ e :: rest ∧
        fetch e = .error err) := by
  rw [firstRun_eq]
  refine ⟨firstError_isSome fetch b.endpoints hfail, rfl, le_max_left _ _, ?_, rfl,
    reached_split fetch b.endpoints hfail⟩
  intro h
  exact max_eq_left h

/-- Witness of C6 (amended): after `t3_d` and a failing fetch the watermark 0
becomes 13 and the watermark 20 stays 20; both calls return an error. -/
theorem firstRun_failure_watermark_witness :
    (∃ e ∈ ["/r/golang", "/r/down"], ∃ err, sampleFetch e = .error err) ∧
      (firstRun sampleFetch Decode ⟨["/r/golang", "/r/down"], 0, []⟩).1.lastID = 13 ∧
      (firstRun sampleFetch Decode ⟨["/r/golang", "/r/down"], 20, []⟩).1.lastID = 20 :=
  ⟨sampleFetch_down _ (by decide),
    (firstRun_failure_watermark sampleFetch Decode ⟨["/r/golang", "/r/down"], 0, []⟩
      (sampleFetch_down _ (by decide))).2.1.trans (by decide),
    (firstRun_failure_watermark sampleFetch Decode ⟨["/r/golang", "/r/down"], 20, []⟩
      (sampleFetch_down _ (by decide))).2.2.2.1 (by decide)⟩

/-- C7 (the code at the failing input): with the watermark at 14 and a
successful cycle whose items are `t3_d` (13) and `t3_b` (11), `getPosts`
assigns the cycle maximum 13, below the watermark before the cycle; on the
same feed `firstRun` keeps 14. -/
theorem getPosts_lowers_watermark :
    (∀ e ∈ ["/r/golang"], ∃ posts, scenarioFetch e = .ok posts) ∧
      (getPosts scenarioFetch Decode ⟨["/r/golang"], 14, []⟩).lastID = 13 ∧
      ¬ (bot.mk ["/r/golang"] 14 []).lastID ≤
        (getPosts scenarioFetch Decode ⟨["/r/golang"], 14, []⟩).lastID ∧
      (firstRun scenarioFetch Decode ⟨["/r/golang"], 14, []⟩).1.lastID = 14 :=
  ⟨scenarioFetch_ok _, by decide, by decide, by decide⟩

/-- C8: when every fetch succeeds, running `getPosts` again on the same feed
content after a completed cycle sends nothing more and leaves the watermark
as the first cycle set it. -/
theorem getPosts_idempotent (fetch : String → Except String Feed) (decode : String → Nat)
    (b : bot) (hok : ∀ e ∈ b.endpoints, ∃ posts, fetch e = .ok posts) :
    (getPosts fetch decode (getPosts fetch decode b)).send = (getPosts fetch decode b).send ∧
      (getPosts fetch decode (getPosts fetch decode b)).lastID =
        (getPosts fetch decode b).lastID := by
  have hep := getPosts_endpoints fetch decode b
  have hok' : ∀ e ∈ (getPosts fetch decode b).endpoints, ∃ posts, fetch e = .ok posts := by
    rw [hep]; exact hok
  have h1 := getPosts_lastID_of_ok fetch decode b hok
  constructor
  · rw [getPosts_send_eq fetch decode (getPosts fetch decode b), hep,
      reached_eq_self fetch b.endpoints hok, newItems_eq_nil decode _ _ (le_of_eq h1.symm)]
    simp
  · rw [getPosts_lastID_of_ok fetch decode _ hok', hep, h1]

/-- Witness of C8: after one cycle on two overlapping endpoints a second cycle
leaves the two messages and the watermark 14 as they are. -/
theorem getPosts_idempotent_witness :
    (∀ e ∈ ["/r/golang", "/r/lean"], ∃ posts, sampleFetch e = .ok posts) ∧
      (getPosts sampleFetch Decode
        (getPosts sampleFetch Decode ⟨["/r/golang", "/r/lean"], 12, []⟩)).send =
        ["[D] d https://redd.it/%!s(MISSING)", "[E] e https://redd.it/%!s(MISSING)"] ∧
      (getPosts sampleFetch Decode
        (getPosts sampleFetch Decode ⟨["/r/golang", "/r/lean"], 12, []⟩)).lastID = 14 :=
  ⟨sampleFetch_ok,
    (getPosts_idempotent sampleFetch Decode ⟨["/r/golang", "/r/lean"], 12, []⟩
      sampleFetch_ok).1.trans (by decide),
    (getPosts_idempotent sampleFetch Decode ⟨["/r/golang", "/r/lean"], 12, []⟩
      sampleFetch_ok).2.trans (by decide)⟩

/-- C9: when every fetch succeeds, `getPosts` and `firstRun` give the same
bot (watermark and messages sent) on a feed content as on that content with
every item without the `t3_` tag removed, and `firstRun` returns no error on
either. -/
theorem untagged_items_ignored (fetch : String → Except String Feed) (decode : String → Nat)
    (b : bot) (hok : ∀ e ∈ b.endpoints, ∃ posts, fetch e = .ok posts) :
    getPosts (onlyTagged fetch) decode b = getPosts fetch decode b ∧
      firstRun (onlyTagged fetch) decode b = firstRun fetch decode b ∧
      (firstRun fetch decode b).2 = none ∧
      (firstRun (onlyTagged fetch) decode b).2 = none := by
  refine ⟨getPosts_onlyTagged fetch decode b, firstRun_onlyTagged fetch decode b, ?_, ?_⟩
  · rw [firstRun_eq]
    exact firstError_eq_none fetch b.endpoints hok
  · rw [firstRun_onlyTagged, firstRun_eq]
    exact firstError_eq_none fetch b.endpoints hok

/-- Witness of C9: the untagged item `promo` of the first sample endpoint
changes nothing: both cycles end as on the feeds without it. -/
theorem untagged_items_ignored_witness :
    (∀ e ∈ ["/r/golang", "/r/lean"], ∃ posts, sampleFetch e = .ok posts) ∧
      itemsOf (onlyTagged sampleFetch) "/r/golang" = [⟨"D", "t3_d"⟩, ⟨"B", "t3_b"⟩] ∧
      getPosts (onlyTagged sampleFetch) Decode ⟨["/r/golang", "/r/lean"], 12, []⟩ =
        getPosts sampleFetch Decode ⟨["/r/golang", "/r/lean"], 12, []⟩ ∧
      firstRun (onlyTagged sampleFetch) Decode ⟨["/r/golang", "/r/lean"], 0, []⟩ =
        (⟨["/r/golang", "/r/lean"], 14, []⟩, none) :=
  ⟨sampleFetch_ok, by decide,
    (untagged_items_ignored sampleFetch Decode ⟨["/r/golang", "/r/lean"], 12, []⟩
      sampleFetch_ok).1,
    (untagged_items_ignored sampleFetch Decode ⟨["/r/golang", "/r/lean"], 0, []⟩
      sampleFetch_ok).2.1.trans (by decide)⟩

/-- C10: for a positive rounding boundary `d` and the current time `t`, the
trigger time of `mainLoop` (round `t` to the nearest multiple of `d`, half
up, add `d` when `t` is after the result) is `t` rounded down to a multiple of
`d` and moved one `d` later when that instant is before `t`; it is a multiple
of `d`, not before `t` and less than `d` after it. -/
theorem firstTrigger_eq_specTrigger (t d : Int) (hd : 0 < d) :
    firstTrigger t t d = specTrigger t d ∧
      t ≤ firstTrigger t t d ∧ firstTrigger t t d < t + d ∧
      firstTrigger t t d % d = 0 := by
  obtain ⟨h0, h1, h2⟩ := emod_bounds t d hd
  have hnd : ¬ d ≤ 0 := not_le.mpr hd
  have key : firstTrigger t t d = if t % d = 0 then t else t + (d - t % d) := by
    unfold firstTrigger Round
    simp only [hnd, if_false]
    split_ifs <;> omega
  have hspec : specTrigger t d = if t % d = 0 then t else t + (d - t % d) := by
    unfold specTrigger
    simp only
    split_ifs <;> omega
  rw [key, hspec]
  refine ⟨rfl, ?_, ?_, ?_⟩
  · split_ifs <;> omega
  · split_ifs <;> omega
  · split_ifs with hz
    · exact hz
    · have : t + (d - t % d) = d * (t / d + 1) := by rw [mul_add, mul_one]; omega
      rw [this]
      exact Int.mul_emod_right d _

/-- Witness of C10: with a boundary of 300 (five minutes in seconds) the time
1000 triggers at 1200, whether `Round` went down (1000 to 900) or, at 1100, up. -/
theorem firstTrigger_eq_specTrigger_witness :
    (0 : Int) < 300 ∧ firstTrigger 1000 1000 300 = 1200 ∧ specTrigger 1000 300 = 1200 ∧
      Round 1000 300 = 900 ∧ Round 1100 300 = 1200 ∧ firstTrigger 1100 1100 300 = 1200 ∧
      firstTrigger 1200 1200 300 = 1200 :=
  ⟨by decide, by decide,
    (firstTrigger_eq_specTrigger 1000 300 (by decide)).1.symm.trans (by decide),
    by decide, by decide, by decide, by decide⟩

end Ircrssreddit
